import Mathlib

/-!
Verification of the DocQA session/retrieval core (melbinjp/DocQA_api).

Shallow embedding of the Python source:
* `utils/splitter.py` (`split_text`) — whitespace collapsing, sentence
  splitting on `[.!?]+`, greedy chunk accumulation;
* `rag_session.py` (`RAGSession.__init__`, `ingest`, `query`) — the
  per-document chunk store, vector index (modelled as the ordered list of
  vectors held by the FAISS index) and the `1 / (1 + distance)` score
  transform;
* `user_session.py` (`UserSession`) — the per-user document map and
  embedding cache;
* `app.py` — the eviction sweep (`_clean_sessions_once`), the
  cache-then-encode embedding block of `ingest`, the retrieval merge of
  `query` (concatenate, stable sort by score descending, truncate to 5),
  and the answer generation / SSE streaming logic
  (`generate_rag_response`, `stream_generator`).

Python floats are modelled as `ℚ`, timestamps as `ℚ`, dicts as ordered
association lists, and the external collaborators (embedder, FAISS
search, LLM) as explicit inputs: the embedder is a function
`String → Vec`, a FAISS search outcome is a list of
`(distance, vector id)` pairs, and an LLM outcome is either a final text
(`Except.ok`), or a failure message (`Except.error`), or — for the
streaming path — the list of tokens yielded before an optional failure.
-/

/-- A fixed-dimension embedding vector (dimension is not tracked). -/
abbrev Vec := List ℚ

/-- `user_session.py`: `UserSession.embedding_cache`, a Python dict from
chunk text to vector, modelled as an ordered association list with
unique keys looked up front-to-back. -/
abbrev EmbCache := List (String × Vec)

/-! ## `utils/splitter.py` -/

/-- Characters matched by Python's `\s` for ASCII text
(`re.sub(r'\s+', ' ', text)` in `split_text`). -/
def pyIsSpace (c : Char) : Bool :=
  c == ' ' || c == '\t' || c == '\n' || c == '\r' || c == '\x0b' || c == '\x0c'

/-- One pass of `re.sub(r'\s+', ' ', text)`: each maximal run of
whitespace becomes a single space.  The `Bool` argument records whether
the previous character was whitespace. -/
def collapseWsAux : Bool → List Char → List Char
  | _, [] => []
  | prevSpace, c :: rest =>
    if pyIsSpace c then
      if prevSpace then collapseWsAux true rest
      else ' ' :: collapseWsAux true rest
    else c :: collapseWsAux false rest

/-- `re.sub(r'\s+', ' ', text)`. -/
def collapseWs (l : List Char) : List Char := collapseWsAux false l

/-- Python `str.strip()` on a character list. -/
def pyStrip (l : List Char) : List Char :=
  ((l.dropWhile pyIsSpace).reverse.dropWhile pyIsSpace).reverse

/-- The sentence-splitting character class `[.!?]+` of `split_text`. -/
def isPunct (c : Char) : Bool := c == '.' || c == '!' || c == '?'

/-- `re.split(r'[.!?]+', text)`: split on maximal runs of sentence
punctuation (the `Bool` records whether the previous character was
punctuation, so a run produces a single boundary). -/
def splitPunctAux : Bool → List Char → List Char → List (List Char)
  | _, [], cur => [cur.reverse]
  | prevPunct, c :: rest, cur =>
    if isPunct c then
      if prevPunct then splitPunctAux true rest cur
      else cur.reverse :: splitPunctAux true rest []
    else splitPunctAux false rest (c :: cur)

/-- `re.split(r'[.!?]+', text)`. -/
def splitPunct (l : List Char) : List (List Char) := splitPunctAux false l []

/-- The chunk-accumulation loop of `split_text`: strip each sentence,
skip empties, extend the current chunk while
`len(current_chunk) + len(sentence) + 1 <= max_chars`, otherwise flush
the current chunk and restart from the sentence; flush the final chunk. -/
def buildChunks (maxChars : Nat) : List (List Char) → List Char → List (List Char)
  | [], cur => if cur.isEmpty then [] else [pyStrip cur]
  | s :: rest, cur =>
    let s' := pyStrip s
    if s'.isEmpty then buildChunks maxChars rest cur
    else if cur.length + s'.length + 1 ≤ maxChars then
      buildChunks maxChars rest (cur ++ ' ' :: s')
    else
      (if cur.isEmpty then [] else [pyStrip cur]) ++ buildChunks maxChars rest s'

/-- `utils/splitter.py`: `split_text(text, max_chars)` (the source
defaults `max_chars` to 500). -/
def split_text (text : String) (max_chars : Nat) : List String :=
  let cleaned := pyStrip (collapseWs text.toList)
  if cleaned.isEmpty then []
  else (buildChunks max_chars (splitPunct cleaned) []).map fun l => String.mk l

/-- The longest stripped sentence produced by the splitter for a text
(used to bound the size of the one oversized chunk a single long
sentence can produce). -/
def maxSentenceLen (text : String) : Nat :=
  ((splitPunct (pyStrip (collapseWs text.toList))).map
    fun s => (pyStrip s).length).foldr max 0

/-! ## `rag_session.py` -/

/-- `rag_session.py`: one `RAGSession` instance (one ingested document).
`chunks` is `self.chunks`; `index` is the ordered list of vectors held
by `self.index` (FAISS `IndexFlatL2`), so `index.length` is
`self.index.ntotal` and position `i` is FAISS vector id `i`. -/
structure RAGSession where
  source : String
  chunks : List String
  index : List Vec
deriving DecidableEq

/-- `RAGSession.__init__(source, ...)`: a fresh session has an empty
chunk list and an empty index. -/
def freshRAGSession (source : String) : RAGSession :=
  { source := source, chunks := [], index := [] }

/-- `RAGSession.ingest(text_chunks, embeddings)`: returns immediately on
an empty chunk list, otherwise adds all embeddings to the index and
extends the chunk store — no length validation, no failure path. -/
def RAGSession.ingest (s : RAGSession) (text_chunks : List String)
    (embeddings : List Vec) : RAGSession :=
  if text_chunks.isEmpty then s
  else { s with index := s.index ++ embeddings, chunks := s.chunks ++ text_chunks }

/-- `rag_session.py` line 80: `score = 1 / (1 + distances[0][i])`. -/
def score_of_distance (d : ℚ) : ℚ := 1 / (1 + d)

/-- One retrieval result of `RAGSession.query`: `{"text": ..., "score": ...}`. -/
structure Retrieved where
  text : String
  score : ℚ
deriving DecidableEq

/-- The result-building loop of `RAGSession.query`, given the FAISS
search outcome as `(distance, vector id)` pairs for the query: ids of
`-1` are skipped, each other id is dereferenced into the chunk store
(FAISS guarantees returned ids are in range; `getD` models that
guarantee) and its distance converted by `score_of_distance`. -/
def RAGSession.queryFrom (s : RAGSession) (search : List (ℚ × Int)) : List Retrieved :=
  search.filterMap fun p =>
    if p.2 = -1 then none
    else some { text := s.chunks.getD p.2.toNat "", score := score_of_distance p.1 }

/-- `RAGSession.query`: returns `[]` when the index is empty, otherwise
converts the FAISS search outcome into scored results. -/
def RAGSession.query (s : RAGSession) (search : List (ℚ × Int)) : List Retrieved :=
  if s.index.isEmpty then [] else s.queryFrom search

/-! ## Session registry and eviction (`app.py`) -/

/-- `app.py` `_clean_sessions_once`, with the registry modelled as a
list of `(session id, last_accessed)` pairs and times as `ℚ`: a session
is removed exactly when `now - last_accessed > timeout` (strict), i.e.
kept when the comparison fails. -/
def clean_sessions_once (now timeout : ℚ) (sessions : List (String × ℚ)) :
    List (String × ℚ) :=
  sessions.filter fun s => !(decide (now - s.2 > timeout))

/-! ## The caching-and-embedding block of `app.py` `ingest` (lines 228-261) -/

/-- Order-preserving de-duplication, as `list(dict.fromkeys(...))`:
first occurrences are kept, in order.  The accumulator holds the keys
already seen. -/
def pyUniqAux : List String → List String → List String
  | [], _ => []
  | c :: rest, seen =>
    if c ∈ seen then pyUniqAux rest seen else c :: pyUniqAux rest (c :: seen)

/-- `list(dict.fromkeys(chunks_to_encode))`. -/
def pyUniq (l : List String) : List String := pyUniqAux l []

/-- Python `dict` assignment `m[k] = v`: replace in place if the key is
present, else append. -/
def dictInsert (m : EmbCache) (k : String) (v : Vec) : EmbCache :=
  match m with
  | [] => [(k, v)]
  | p :: rest => if p.1 = k then (k, v) :: rest else p :: dictInsert rest k v

/-- Python `dict.update(new_pairs)`. -/
def dictUpdate (m : EmbCache) (newPairs : List (String × Vec)) : EmbCache :=
  newPairs.foldl (fun acc p => dictInsert acc p.1 p.2) m

/-- The cache-miss scan of `ingest`: the chunks appended to
`chunks_to_encode` are exactly those not in the session cache, in
order. -/
def chunks_to_encode (cache : EmbCache) (chunks : List String) : List String :=
  chunks.filter fun c => (List.lookup c cache).isNone

/-- Outcome of the caching-and-embedding block of `ingest`:
`ordered` is `ordered_embeddings` (position `i` corresponds to
`chunks[i]`), `encoded` is `unique_new_chunks` — the batch passed to
`embedding_model.encode` (empty when there is no cache miss, matching
the `if chunks_to_encode:` guard), and `cache'` is the updated session
cache. -/
structure EmbedResult where
  ordered : List Vec
  encoded : List String
  cache' : EmbCache
deriving DecidableEq

/-- The caching-and-embedding block of `app.py` `ingest` (lines
228-261), with the embedder as an explicit function: cached chunks take
their stored vector, the de-duplicated cache misses are batch-encoded,
the new pairs enter the cache, and the ordered output is reassembled so
position `i` corresponds to `chunks[i]` (the `indices_of_new_chunks`
bookkeeping of the source realizes exactly this per-position choice
between the old cache and `new_embeddings_dict`; the unreachable `[]`
branch covers chunks that are neither cached nor new, which cannot
occur). -/
def resolve_embeddings (encode : String → Vec) (cache : EmbCache)
    (chunks : List String) : EmbedResult :=
  let uniqueNew := pyUniq (chunks_to_encode cache chunks)
  let newPairs := uniqueNew.map fun c => (c, encode c)
  { ordered := chunks.map fun c =>
      match List.lookup c cache with
      | some v => v
      | none =>
        match List.lookup c newPairs with
        | some v => v
        | none => []
    encoded := uniqueNew
    cache' := dictUpdate cache newPairs }

/-! ## The `query` endpoint of `app.py` (lines 272-326) -/

/-- One element of `sources` in a query response: the retrieved chunk
tagged with its owning document id and source label
(`chunk['doc_id'] = doc_id; chunk['source'] = rag_session.source`). -/
structure QuerySource where
  text : String
  score : ℚ
  doc_id : String
  source : String
deriving DecidableEq

/-- The comparison realized by
`all_chunks.sort(key=lambda x: x['score'], reverse=True)`:
`a` may come before `b` when `b`'s score is no larger. -/
def scoreGE (a b : QuerySource) : Prop := b.score ≤ a.score

instance : DecidableRel scoreGE :=
  fun a b => inferInstanceAs (Decidable (b.score ≤ a.score))

instance : IsTotal QuerySource scoreGE := ⟨fun a b => le_total b.score a.score⟩

instance : IsTrans QuerySource scoreGE := ⟨fun _ _ _ h1 h2 => le_trans h2 h1⟩

/-- `all_chunks.sort(key=lambda x: x['score'], reverse=True)`: a stable
sort by score descending (Python's `list.sort` is stable, so equal
scores keep their original order); insertion sort is stable and equals
the unique stable sort for this total preorder. -/
def sortChunks (xs : List QuerySource) : List QuerySource :=
  xs.insertionSort scoreGE

/-- The merge step of `query`: sort the concatenated per-document
results by score descending (stable) and truncate
(`top_chunks = all_chunks[:5]`; the endpoint instantiates
`kTotal = 5`). -/
def merge_and_rank (kTotal : Nat) (xs : List QuerySource) : List QuerySource :=
  (sortChunks xs).take kTotal

/-- The candidate-document selection of `query` (lines 281-288): with no
filter — `payload.doc_ids` is `None` or `[]`, both falsy — all the
session's documents (in dict order) are candidates; with a filter, each
listed id that resolves via `get_doc` contributes its document, and
unresolvable ids are dropped. -/
def docsToQuery (docs : List (String × RAGSession)) (doc_ids : Option (List String)) :
    List (String × RAGSession) :=
  match doc_ids with
  | none => docs
  | some ids =>
    if ids = [] then docs
    else ids.filterMap fun d => (List.lookup d docs).map fun s => (d, s)

/-- Tagging of one document's retrieved chunks with `doc_id` and
`source` (lines 293-295). -/
def tagChunks (docId : String) (rs : RAGSession) (retrieved : List Retrieved) :
    List QuerySource :=
  retrieved.map fun r =>
    { text := r.text, score := r.score, doc_id := docId, source := rs.source }

/-- The retrieval fan-out of `query` (lines 290-296): query every
candidate document (retrieval delegated to the external
embedder+FAISS, given as `retrieve`), tag, and concatenate in candidate
order. -/
def gatherChunks (retrieve : RAGSession → List Retrieved) :
    List (String × RAGSession) → List QuerySource
  | [] => []
  | p :: rest => tagChunks p.1 p.2 (retrieve p.2) ++ gatherChunks retrieve rest

/-- `generate_rag_response` (non-streaming, lines 100-132): an empty
context yields the fixed no-information answer without calling the LLM;
otherwise the LLM outcome is either a stripped answer text or an
exception surfaced as an error (`HTTPException 500`,
`"LLM generation failed: ..."`). -/
def generate_rag_response (context_chunks : List String)
    (llm : Except String String) : Except String String :=
  if context_chunks.isEmpty then Except.ok "No relevant information found."
  else
    match llm with
    | Except.ok t => Except.ok t.trim
    | Except.error e => Except.error ("LLM generation failed: " ++ e)

/-- One SSE event of the streaming path: the sources announcement, a
token increment, an in-band error, or the terminal end marker. -/
inductive SSEEvent where
  | sources (data : List QuerySource)
  | token (t : String)
  | error (msg : String)
  | endEv
deriving DecidableEq

/-- `generate_rag_response` (streaming): an empty context yields the
single no-information token; otherwise the tokens the LLM yielded
before an optional mid-stream failure are emitted in order (empty
`chunk.text` is skipped by the `if chunk.text:` guard), followed by one
error event when the failure occurred. -/
def generate_rag_stream (context_chunks : List String) (tokens : List String)
    (failure : Option String) : List SSEEvent :=
  if context_chunks.isEmpty then [SSEEvent.token "No relevant information found."]
  else
    (tokens.filter fun t => t ≠ "").map SSEEvent.token ++
      match failure with
      | none => []
      | some e => [SSEEvent.error ("LLM generation failed: " ++ e)]

/-- `stream_generator` of the `query` endpoint (lines 305-318): one
sources event, then the streamed generation events, then the terminal
end event. -/
def stream_generator (srcs : List QuerySource) (context_chunks : List String)
    (tokens : List String) (failure : Option String) : List SSEEvent :=
  SSEEvent.sources srcs ::
    (generate_rag_stream context_chunks tokens failure ++ [SSEEvent.endEv])

/-- The non-streaming `query` endpoint after session lookup: candidate
selection, fan-out, merge with `kTotal = 5`, then generation over the
texts of the retained chunks; returns `(relevant_sources, answer)`. -/
def query_endpoint (retrieve : RAGSession → List Retrieved)
    (docs : List (String × RAGSession)) (doc_ids : Option (List String))
    (llm : Except String String) :
    List QuerySource × Except String String :=
  let top := merge_and_rank 5 (gatherChunks retrieve (docsToQuery docs doc_ids))
  (top, generate_rag_response (top.map QuerySource.text) llm)

/-! ## Spec-side contracts (for refinement comparison) -/

/-- The error kind of the spec's `build` contract. -/
inductive IngestError where
  | invalidInput
deriving DecidableEq

/-- Modelled from the spec (§4.3 `build(chunks, vectors)`): fails with
`InvalidInput` when the chunk list is empty or the chunk and vector
counts differ, otherwise accepts the batch as given.  This is the
spec's contract, stated for comparison against `RAGSession.ingest`. -/
def spec_build (chunks : List String) (vectors : List Vec) :
    Except IngestError (List String × List Vec) :=
  if chunks.isEmpty then Except.error IngestError.invalidInput
  else if chunks.length ≠ vectors.length then Except.error IngestError.invalidInput
  else Except.ok (chunks, vectors)

/-- Modelled from the spec (§4.4 step 5): "Filter out items with
`score <= minScore`" — keep exactly the items with `minScore < score`.
Stated for comparison: the source's `query` endpoint applies no such
filter. -/
def spec_threshold_filter (minScore : ℚ) (xs : List QuerySource) : List QuerySource :=
  xs.filter fun c => decide (minScore < c.score)

/-! ## Concrete rationals and example documents

Rationals are given in normalized `num/den` form so that all concrete
examples reduce inside the kernel (`0.9 = 9/10`, `0.8 = 4/5`,
`0.95 = 19/20`, `0.4 = 2/5`, `0.5 = 1/2`). -/

def q09 : ℚ := ⟨9, 10, by norm_num, by norm_num⟩

def q08 : ℚ := ⟨4, 5, by norm_num, by norm_num⟩

def q095 : ℚ := ⟨19, 20, by norm_num, by norm_num⟩

def q04 : ℚ := ⟨2, 5, by norm_num, by norm_num⟩

def q05 : ℚ := ⟨1, 2, by norm_num, by norm_num⟩

/-- Document A of the merge-ordering example. -/
def docA : RAGSession := { source := "A", chunks := ["a1"], index := [[q09]] }

/-- Document B of the merge-ordering example. -/
def docB : RAGSession := { source := "B", chunks := ["b1", "b2"], index := [[q08], [q095]] }

/-- Retrieval outcome of the merge-ordering example: document A returns
score `0.9`, document B returns scores `[0.8, 0.95]`. -/
def exampleRetrieve (rs : RAGSession) : List Retrieved :=
  if rs.source = "A" then [{ text := "a1", score := q09 }]
  else [{ text := "b1", score := q08 }, { text := "b2", score := q095 }]

/-! ## Helper lemmas -/

theorem score_of_distance_bounds {d : ℚ} (hd : 0 ≤ d) :
    0 < score_of_distance d ∧ score_of_distance d ≤ 1 := by
  have h1 : (0 : ℚ) < 1 + d := by linarith
  constructor
  · exact one_div_pos.mpr h1
  · rw [score_of_distance, div_le_one h1]
    linarith

theorem score_of_distance_strict_anti {d₁ d₂ : ℚ} (h0 : 0 ≤ d₁) (h : d₁ < d₂) :
    score_of_distance d₂ < score_of_distance d₁ := by
  have h1 : (0 : ℚ) < 1 + d₁ := by linarith
  rw [score_of_distance, score_of_distance]
  exact one_div_lt_one_div_of_lt h1 (by linarith)

theorem pyUniqAux_mem (x : String) :
    ∀ (l seen : List String), x ∈ pyUniqAux l seen ↔ x ∈ l ∧ x ∉ seen
  | [], seen => by simp [pyUniqAux]
  | c :: rest, seen => by
    by_cases hc : c ∈ seen
    · rw [pyUniqAux, if_pos hc, pyUniqAux_mem x rest seen]
      by_cases hxc : x = c
      · subst hxc
        simp [hc]
      · simp [hxc]
    · rw [pyUniqAux, if_neg hc]
      by_cases hxc : x = c
      · subst hxc
        simp [hc]
      · simp only [List.mem_cons, pyUniqAux_mem x rest (c :: seen), hxc]
        tauto

theorem pyUniqAux_nodup : ∀ (l seen : List String), (pyUniqAux l seen).Nodup
  | [], _ => by simp [pyUniqAux]
  | c :: rest, seen => by
    by_cases hc : c ∈ seen
    · rw [pyUniqAux, if_pos hc]
      exact pyUniqAux_nodup rest seen
    · rw [pyUniqAux, if_neg hc, List.nodup_cons]
      refine ⟨fun hmem => ?_, pyUniqAux_nodup rest (c :: seen)⟩
      exact ((pyUniqAux_mem c rest (c :: seen)).mp hmem).2 (List.mem_cons_self c seen)

theorem lookup_cons_eq (a : String) (b : Vec) (es : EmbCache) (k : String) :
    List.lookup k ((a, b) :: es) = if k = a then some b else List.lookup k es := by
  by_cases h : k = a
  · have hb : (k == a) = true := beq_iff_eq.mpr h
    rw [List.lookup, hb, if_pos h]
  · have hb : (k == a) = false := beq_eq_false_iff_ne.mpr h
    rw [List.lookup, hb, if_neg h]

theorem lookup_dictInsert (k k' : String) (v : Vec) :
    ∀ m : EmbCache,
      List.lookup k' (dictInsert m k v) = if k' = k then some v else List.lookup k' m
  | [] => by
    rw [dictInsert, lookup_cons_eq]
  | (a, b) :: rest => by
    rw [dictInsert]
    by_cases hak : a = k
    · rw [if_pos hak, lookup_cons_eq, lookup_cons_eq]
      by_cases hk : k' = k
      · simp [hk, hak]
      · simp [hk, hak]
    · rw [if_neg hak, lookup_cons_eq, lookup_cons_eq,
        lookup_dictInsert k k' v rest]
      by_cases hka : k' = a
      · subst hka
        simp [hak]
      · simp [hka]

theorem dictUpdate_cons (m : EmbCache) (p : String × Vec) (ps : List (String × Vec)) :
    dictUpdate m (p :: ps) = dictUpdate (dictInsert m p.1 p.2) ps := rfl

theorem lookup_isSome_dictUpdate (k : String) :
    ∀ (ps : List (String × Vec)) (m : EmbCache),
      ((List.lookup k m).isSome ∨ k ∈ ps.map Prod.fst) →
      (List.lookup k (dictUpdate m ps)).isSome
  | [], m => by simp [dictUpdate]
  | p :: ps, m => by
    intro h
    rw [dictUpdate_cons]
    apply lookup_isSome_dictUpdate k ps
    rcases h with hm | hp
    · left
      rw [lookup_dictInsert]
      split
      · rfl
      · exact hm
    · rw [List.map_cons] at hp
      rcases List.mem_cons.mp hp with he | hin
      · left
        rw [lookup_dictInsert, if_pos he]
        rfl
      · right
        exact hin

theorem mem_encoded_iff (encode : String → Vec) (cache : EmbCache)
    (chunks : List String) (c : String) :
    c ∈ (resolve_embeddings encode cache chunks).encoded ↔
      c ∈ chunks ∧ List.lookup c cache = none := by
  show c ∈ pyUniq (chunks_to_encode cache chunks) ↔ _
  rw [pyUniq, pyUniqAux_mem]
  simp [chunks_to_encode, List.mem_filter, Option.isNone_iff_eq_none]

theorem lookup_cache'_isSome (encode : String → Vec) (cache : EmbCache)
    (chunks : List String) (c : String) (hc : c ∈ chunks) :
    (List.lookup c (resolve_embeddings encode cache chunks).cache').isSome := by
  show (List.lookup c (dictUpdate cache
    ((pyUniq (chunks_to_encode cache chunks)).map fun c => (c, encode c)))).isSome
  apply lookup_isSome_dictUpdate
  cases hlk : List.lookup c cache with
  | some v => exact Or.inl (by simp [hlk])
  | none =>
    right
    have hmem : c ∈ pyUniq (chunks_to_encode cache chunks) := by
      rw [pyUniq, pyUniqAux_mem]
      refine ⟨List.mem_filter.mpr ⟨hc, ?_⟩, List.not_mem_nil c⟩
      rw [hlk]
      rfl
    simpa [List.map_map, Function.comp] using hmem

theorem lookup_cache'_isSome_of_isSome (encode : String → Vec) (cache : EmbCache)
    (chunks : List String) (c : String) (h : (List.lookup c cache).isSome) :
    (List.lookup c (resolve_embeddings encode cache chunks).cache').isSome :=
  lookup_isSome_dictUpdate c _ cache (Or.inl h)

theorem count_encoded_le_one (encode : String → Vec) (cache : EmbCache)
    (chunks : List String) (c : String) :
    ((resolve_embeddings encode cache chunks).encoded).count c ≤ 1 :=
  List.nodup_iff_count_le_one.mp (pyUniqAux_nodup _ _) c

/-! ## Claim theorems -/

/-- C6, counterexample: the spec's `build` contract demands an
`InvalidInput` failure for an empty chunk list or a chunk/vector count
mismatch, but `RAGSession.ingest` has no failure path: on an empty
chunk list it silently returns the session unchanged, and on a count
mismatch (one chunk, zero vectors) it silently produces a document
whose chunk count and index size disagree. -/
theorem C6_counterexample :
    spec_build [] [] = Except.error IngestError.invalidInput ∧
    RAGSession.ingest (freshRAGSession "doc") [] [] = freshRAGSession "doc" ∧
    spec_build ["a"] [] = Except.error IngestError.invalidInput ∧
    (RAGSession.ingest (freshRAGSession "doc") ["a"] []).chunks = ["a"] ∧
    (RAGSession.ingest (freshRAGSession "doc") ["a"] []).index = [] := by
  refine ⟨rfl, rfl, rfl, rfl, rfl⟩

/-- C6, amended: `RAGSession.ingest` with an empty chunk list is a
silent no-op (the session is returned unchanged, not an `InvalidInput`
failure), and no chunk/vector length validation is performed; for a
nonempty chunk list all vectors are added to the index in the given
order and all chunks stored in the given order, so in a fresh index the
chunk at position `i` is retrievable by vector id `i` whenever the
counts agree. -/
theorem C6_ingest_behavior (src : String) (chunks : List String) (vecs : List Vec)
    (hne : chunks ≠ []) :
    (∀ (s : RAGSession) (vs : List Vec), RAGSession.ingest s [] vs = s) ∧
    ((freshRAGSession src).ingest chunks vecs).chunks = chunks ∧
    ((freshRAGSession src).ingest chunks vecs).index = vecs := by
  have hemp : chunks.isEmpty = false := by
    cases chunks with
    | nil => exact absurd rfl hne
    | cons a l => rfl
  refine ⟨fun s vs => rfl, ?_, ?_⟩ <;>
    simp [RAGSession.ingest, freshRAGSession, hemp]

/-- C6, witness for `C6_ingest_behavior` at a concrete ingest batch. -/
theorem C6_witness :
    (∀ (s : RAGSession) (vs : List Vec), RAGSession.ingest s [] vs = s) ∧
    ((freshRAGSession "d").ingest ["a", "b"] [[q09], [q08]]).chunks = ["a", "b"] ∧
    ((freshRAGSession "d").ingest ["a", "b"] [[q09], [q08]]).index = [[q09], [q08]] :=
  C6_ingest_behavior "d" ["a", "b"] [[q09], [q08]] (by decide)

/-- C5: the eviction sweep removes exactly the sessions whose idle time
strictly exceeds the timeout: a session last touched at `t` is gone
from the registry after a sweep at `t + timeout + ε` (any `ε > 0`),
still present after a sweep at `t + timeout − ε`, and in general a
session survives the sweep iff it was present and
`¬ (now − lastAccessed > timeout)`. -/
theorem C5_eviction (sid : String) (t timeout ε : ℚ) (sess : List (String × ℚ))
    (hmem : (sid, t) ∈ sess) (hε : 0 < ε) :
    (sid, t) ∉ clean_sessions_once (t + timeout + ε) timeout sess ∧
    (sid, t) ∈ clean_sessions_once (t + timeout - ε) timeout sess ∧
    ∀ (now : ℚ) (p : String × ℚ),
      p ∈ clean_sessions_once now timeout sess ↔
        p ∈ sess ∧ ¬ (now - p.2 > timeout) := by
  have key : ∀ (now : ℚ) (p : String × ℚ),
      p ∈ clean_sessions_once now timeout sess ↔
        p ∈ sess ∧ ¬ (now - p.2 > timeout) := by
    intro now p
    rw [clean_sessions_once, List.mem_filter]
    simp
  refine ⟨?_, ?_, key⟩
  · rw [key]
    rintro ⟨-, habs⟩
    apply habs
    simp only [gt_iff_lt]
    linarith
  · rw [key]
    refine ⟨hmem, ?_⟩
    simp only [gt_iff_lt, not_lt]
    linarith

/-- C5, witness for `C5_eviction` at a concrete registry. -/
theorem C5_witness :
    ("s", q05) ∉ clean_sessions_once (q05 + q05 + q05) q05 [("s", q05)] ∧
    ("s", q05) ∈ clean_sessions_once (q05 + q05 - q05) q05 [("s", q05)] ∧
    ∀ (now : ℚ) (p : String × ℚ),
      p ∈ clean_sessions_once now q05 [("s", q05)] ↔
        p ∈ [("s", q05)] ∧ ¬ (now - p.2 > q05) :=
  C5_eviction "s" q05 q05 q05 [("s", q05)] (by decide) (by decide)

/-- C1, counterexample: the `query` endpoint applies no `minScore`
threshold.  With merged scores `[0.9, 0.4]` and the spec's
`minScore = 0.5`, the code retains both items, so two sources and a
context set of size two reach the generator, where the claim demands
exactly one (the spec-side filter keeps exactly one). -/
theorem C1_counterexample :
    (merge_and_rank 5 [⟨"a", q09, "d1", "s1"⟩, ⟨"b", q04, "d1", "s1"⟩]).length = 2 ∧
    ((merge_and_rank 5 [⟨"a", q09, "d1", "s1"⟩, ⟨"b", q04, "d1", "s1"⟩]).map
      QuerySource.text).length = 2 ∧
    (spec_threshold_filter q05
      (merge_and_rank 5 [⟨"a", q09, "d1", "s1"⟩, ⟨"b", q04, "d1", "s1"⟩])).length = 1 := by
  refine ⟨by decide, by decide, by decide⟩

/-- C1, amended: after sorting and truncating to `kTotal = 5`, every
retained item reaches generation with no score filtering (with merged
scores `[0.9, 0.4]` both items are retained, in score order), and when
retrieval yields no chunks at all the outcome is the fixed
"No relevant information found." answer — an `Except.ok`, never an
error. -/
theorem C1_no_threshold (llm : Except String String) :
    merge_and_rank 5 [⟨"a", q09, "d1", "s1"⟩, ⟨"b", q04, "d1", "s1"⟩]
      = [⟨"a", q09, "d1", "s1"⟩, ⟨"b", q04, "d1", "s1"⟩] ∧
    generate_rag_response [] llm = Except.ok "No relevant information found." ∧
    ∀ e, generate_rag_response [] llm ≠ Except.error e := by
  refine ⟨by decide, rfl, fun e h => by simp [generate_rag_response] at h⟩

/-- C1, witness for `C1_no_threshold` at a concrete generator outcome. -/
theorem C1_witness :
    merge_and_rank 5 [⟨"a", q09, "d1", "s1"⟩, ⟨"b", q04, "d1", "s1"⟩]
      = [⟨"a", q09, "d1", "s1"⟩, ⟨"b", q04, "d1", "s1"⟩] ∧
    generate_rag_response [] (Except.ok "x")
      = Except.ok "No relevant information found." ∧
    ∀ e, generate_rag_response [] (Except.ok "x") ≠ Except.error e :=
  C1_no_threshold (Except.ok "x")

/-- C8: every result item of a document query has
`score = 1 / (1 + distance)`; for distances `≥ 0` every score lies in
`(0, 1]` — strictly positive, never above `1`, never negative — and the
transform is strictly decreasing in the distance, so closer vectors
always score higher. -/
theorem C8_score_bounds (s : RAGSession) (search : List (ℚ × Int))
    (hd : ∀ p ∈ search, 0 ≤ p.1) :
    (∀ r ∈ s.query search, 0 < r.score ∧ r.score ≤ 1) ∧
    (∀ d₁ d₂ : ℚ, 0 ≤ d₁ → d₁ < d₂ →
      score_of_distance d₂ < score_of_distance d₁) := by
  constructor
  · intro r hr
    rw [RAGSession.query] at hr
    by_cases hidx : s.index.isEmpty
    · rw [if_pos hidx] at hr
      exact absurd hr (List.not_mem_nil r)
    · rw [if_neg hidx, RAGSession.queryFrom] at hr
      obtain ⟨p, hp, hpr⟩ := List.mem_filterMap.mp hr
      by_cases hneg : p.2 = -1
      · rw [if_pos hneg] at hpr
        exact absurd hpr (Option.noConfusion)
      · rw [if_neg hneg] at hpr
        have hscore : r.score = score_of_distance p.1 := by
          cases Option.some.inj hpr
          rfl
        rw [hscore]
        exact score_of_distance_bounds (hd p hp)
  · intro d₁ d₂ h0 h
    exact score_of_distance_strict_anti h0 h

/-- C8, witness for `C8_score_bounds` at a concrete search result of
distance `0.9`. -/
theorem C8_witness :
    0 < score_of_distance q09 ∧ score_of_distance q09 ≤ 1 :=
  (C8_score_bounds docA [(q09, (0 : Int))] (by decide)).1
    { text := "a1", score := score_of_distance q09 }
    (by rw [show docA.query [(q09, (0 : Int))]
          = [{ text := "a1", score := score_of_distance q09 }] from rfl]
        exact List.mem_singleton.mpr rfl)

/-- C7: with a document-id filter, every queried candidate comes from an
id in the filter that resolves in the session's document map (unknown
ids are silently dropped, not an error), and a filter consisting only
of nonexistent ids yields zero sources and the fixed
"No relevant information found." answer. -/
theorem C7_unknown_filter (docs : List (String × RAGSession))
    (retrieve : RAGSession → List Retrieved) (ids : List String)
    (llm : Except String String) (hne : ids ≠ []) :
    (∀ p ∈ docsToQuery docs (some ids),
      p.1 ∈ ids ∧ List.lookup p.1 docs = some p.2) ∧
    ((∀ d ∈ ids, List.lookup d docs = none) →
      (query_endpoint retrieve docs (some ids) llm).1 = [] ∧
      (query_endpoint retrieve docs (some ids) llm).2
        = Except.ok "No relevant information found.") := by
  have hd : docsToQuery docs (some ids)
      = ids.filterMap fun d => (List.lookup d docs).map fun s => (d, s) := by
    rw [docsToQuery, if_neg hne]
  constructor
  · intro p hp
    rw [hd] at hp
    obtain ⟨d, hdm, hfd⟩ := List.mem_filterMap.mp hp
    cases hlk : List.lookup d docs with
    | none =>
      rw [hlk] at hfd
      exact absurd hfd (Option.noConfusion)
    | some s =>
      rw [hlk] at hfd
      have hps : (d, s) = p := Option.some.inj hfd
      rw [← hps]
      exact ⟨hdm, hlk⟩
  · intro hall
    have hdq : docsToQuery docs (some ids) = [] := by
      rw [hd]
      apply List.filterMap_eq_nil_iff.mpr
      intro d hdm
      rw [hall d hdm]
      rfl
    have htop : merge_and_rank 5 (gatherChunks retrieve (docsToQuery docs (some ids)))
        = [] := by
      rw [hdq]
      rfl
    constructor
    · exact htop
    · show generate_rag_response
        ((merge_and_rank 5 (gatherChunks retrieve (docsToQuery docs (some ids)))).map
          QuerySource.text) llm = _
      rw [htop]
      rfl

/-- C7, witness for `C7_unknown_filter`: a filter of one nonexistent id
against a one-document session. -/
theorem C7_witness :
    (query_endpoint exampleRetrieve [("d1", docA)] (some ["zzz"])
      (Except.ok "x")).1 = [] ∧
    (query_endpoint exampleRetrieve [("d1", docA)] (some ["zzz"])
      (Except.ok "x")).2 = Except.ok "No relevant information found." :=
  (C7_unknown_filter [("d1", docA)] exampleRetrieve ["zzz"] (Except.ok "x")
    (by decide)).2 (by decide)

/-- C10 helper: with `lookup d docs = some s`, each occurrence of `d` in
the filter contributes one `(d, s)` candidate. -/
theorem count_docsToQuery_filterMap (docs : List (String × RAGSession)) (d : String)
    (s : RAGSession) (h : List.lookup d docs = some s) :
    ∀ ids : List String,
      ((ids.filterMap fun i => (List.lookup i docs).map fun t => (i, t)).count (d, s))
        = ids.count d
  | [] => by simp
  | i :: rest => by
    rw [List.filterMap_cons]
    by_cases hid : i = d
    · subst hid
      rw [h]
      simp [List.count_cons, count_docsToQuery_filterMap docs i s h rest]
    · cases hlk : List.lookup i docs with
      | none =>
        simp [List.count_cons, hid, count_docsToQuery_filterMap docs d s h rest,
          Ne.symm hid]
      | some t =>
        have h1 : (((d, s) : String × RAGSession) == (i, t)) = false := by
          simp only [beq_eq_false_iff_ne, ne_eq]
          intro he
          exact hid (congrArg Prod.fst he).symm
        simp [List.count_cons, h1, count_docsToQuery_filterMap docs d s h rest,
          Ne.symm hid]

/-- C10: a document-id filter is not de-duplicated — each occurrence of
an existing id contributes one candidate (so the candidate pool counts
it once per occurrence), and with the duplicate filter `[d, d]` the
merged candidate pool is the document's tagged results twice over. -/
theorem C10_duplicate_filter (docs : List (String × RAGSession)) (ids : List String)
    (d : String) (s : RAGSession) (retrieve : RAGSession → List Retrieved)
    (h : List.lookup d docs = some s) (hne : ids ≠ []) :
    (docsToQuery docs (some ids)).count (d, s) = ids.count d ∧
    gatherChunks retrieve (docsToQuery docs (some [d, d]))
      = tagChunks d s (retrieve s) ++ tagChunks d s (retrieve s) := by
  constructor
  · rw [docsToQuery, if_neg hne]
    exact count_docsToQuery_filterMap docs d s h ids
  · have hdq : docsToQuery docs (some [d, d]) = [(d, s), (d, s)] := by
      rw [docsToQuery, if_neg (by simp)]
      rw [List.filterMap_cons, List.filterMap_cons, h]
      rfl
    rw [hdq]
    show tagChunks d s (retrieve s) ++ (tagChunks d s (retrieve s) ++ []) = _
    rw [List.append_nil]

/-- C10, witness for `C10_duplicate_filter` at a concrete duplicated
filter. -/
theorem C10_witness :
    (docsToQuery [("d1", docA)] (some ["d1", "d1"])).count ("d1", docA)
      = ["d1", "d1"].count "d1" ∧
    gatherChunks exampleRetrieve (docsToQuery [("d1", docA)] (some ["d1", "d1"]))
      = tagChunks "d1" docA (exampleRetrieve docA)
        ++ tagChunks "d1" docA (exampleRetrieve docA) :=
  C10_duplicate_filter [("d1", docA)] ["d1", "d1"] "d1" docA exampleRetrieve
    (by decide) (by decide)

/-- C2: across two ingests into the same session (any two chunk lists,
any starting cache), the embedder is invoked for a chunk text at most
once in total — the batch actually encoded never repeats a text within
an ingest (de-duplication) nor across ingests (the cache created by the
first ingest supplies the vector on the second), and a second ingest
whose chunks were all seen in the first performs zero encode calls. -/
theorem C2_encode_once (encode : String → Vec) (cache₀ : EmbCache)
    (chunks₁ chunks₂ : List String) (c : String) :
    ((resolve_embeddings encode cache₀ chunks₁).encoded ++
      (resolve_embeddings encode (resolve_embeddings encode cache₀ chunks₁).cache'
        chunks₂).encoded).count c ≤ 1 ∧
    ((∀ x ∈ chunks₂, x ∈ chunks₁) →
      (resolve_embeddings encode (resolve_embeddings encode cache₀ chunks₁).cache'
        chunks₂).encoded = []) := by
  constructor
  · rw [List.count_append]
    by_cases h1 : c ∈ (resolve_embeddings encode cache₀ chunks₁).encoded
    · have hc1 := (mem_encoded_iff encode cache₀ chunks₁ c).mp h1
      have hsome := lookup_cache'_isSome encode cache₀ chunks₁ c hc1.1
      have h2 : c ∉ (resolve_embeddings encode
          (resolve_embeddings encode cache₀ chunks₁).cache' chunks₂).encoded := by
        rw [mem_encoded_iff]
        rintro ⟨-, hnone⟩
        rw [hnone] at hsome
        exact Bool.noConfusion hsome
      rw [List.count_eq_zero.mpr h2]
      have := count_encoded_le_one encode cache₀ chunks₁ c
      omega
    · rw [List.count_eq_zero.mpr h1]
      have := count_encoded_le_one encode
        (resolve_embeddings encode cache₀ chunks₁).cache' chunks₂ c
      omega
  · intro hsub
    have hfil : chunks_to_encode (resolve_embeddings encode cache₀ chunks₁).cache'
        chunks₂ = [] := by
      rw [chunks_to_encode, List.filter_eq_nil_iff]
      intro x hx
      have hs := lookup_cache'_isSome encode cache₀ chunks₁ x (hsub x hx)
      intro hnone
      rw [Option.isNone_iff_eq_none] at hnone
      rw [hnone] at hs
      exact Bool.noConfusion hs
    show pyUniq (chunks_to_encode
      (resolve_embeddings encode cache₀ chunks₁).cache' chunks₂) = []
    rw [hfil]
    rfl

/-- C2, witness for `C2_encode_once`: the same one-chunk document
ingested twice — at most one encode overall, and none on the second
ingest. -/
theorem C2_witness :
    (((resolve_embeddings (fun _ => [q09]) [] ["x"]).encoded ++
      (resolve_embeddings (fun _ => [q09])
        (resolve_embeddings (fun _ => [q09]) [] ["x"]).cache' ["x"]).encoded).count
          "x" ≤ 1) ∧
    (resolve_embeddings (fun _ => [q09])
      (resolve_embeddings (fun _ => [q09]) [] ["x"]).cache' ["x"]).encoded = [] :=
  ⟨(C2_encode_once (fun _ => [q09]) [] ["x"] ["x"] "x").1,
   (C2_encode_once (fun _ => [q09]) [] ["x"] ["x"] "x").2 (fun _ hx => hx)⟩

/-- C4: the merge concatenates the per-document results in the order
the documents were supplied (`gatherChunks`), sorts by score descending
with a stable sort, and truncates; the merged output is always sorted
descending, the sort is a permutation preserving pairs already in
relation (stability: a pair in relation keeps its relative order, so
equal scores keep the order their documents were supplied in), and on
the claim's example — doc A scores `[0.9]`, doc B scores `[0.8, 0.95]`,
`kTotal = 2` — the merge yields `[0.95 (B), 0.9 (A)]`; a tied pool
keeps the first-supplied document first. -/
theorem C4_merge_ordering :
    (∀ (k : Nat) (xs : List QuerySource), (merge_and_rank k xs).Sorted scoreGE) ∧
    (∀ xs : List QuerySource, (sortChunks xs).Perm xs) ∧
    (∀ (a b : QuerySource) (xs : List QuerySource),
      scoreGE a b → [a, b].Sublist xs → [a, b].Sublist (sortChunks xs)) ∧
    gatherChunks exampleRetrieve [("A", docA), ("B", docB)]
      = [⟨"a1", q09, "A", "A"⟩, ⟨"b1", q08, "B", "B"⟩, ⟨"b2", q095, "B", "B"⟩] ∧
    merge_and_rank 2 (gatherChunks exampleRetrieve [("A", docA), ("B", docB)])
      = [⟨"b2", q095, "B", "B"⟩, ⟨"a1", q09, "A", "A"⟩] ∧
    merge_and_rank 5 [⟨"t1", q05, "A", "A"⟩, ⟨"t2", q05, "B", "B"⟩]
      = [⟨"t1", q05, "A", "A"⟩, ⟨"t2", q05, "B", "B"⟩] := by
  refine ⟨?_, ?_, ?_, by decide, by decide, by decide⟩
  · intro k xs
    exact List.Pairwise.sublist (List.take_sublist k _)
      (List.sorted_insertionSort scoreGE xs)
  · exact fun xs => List.perm_insertionSort scoreGE xs
  · exact fun a b xs hab hsub => List.pair_sublist_insertionSort hab hsub

/-- C4, witness for `C4_merge_ordering` (stability applied to a
concrete tied pair). -/
theorem C4_witness :
    List.Sublist [⟨"t1", q05, "A", "A"⟩, ⟨"t2", q05, "B", "B"⟩]
      (sortChunks [⟨"t1", q05, "A", "A"⟩, ⟨"t2", q05, "B", "B"⟩]) :=
  C4_merge_ordering.2.2.1 ⟨"t1", q05, "A", "A"⟩ ⟨"t2", q05, "B", "B"⟩
    [⟨"t1", q05, "A", "A"⟩, ⟨"t2", q05, "B", "B"⟩] (by decide) (by decide)

/-- C3: the streamed event sequence is exactly one sources event, then
zero or more token events preserving generation order, then — only on a
mid-stream generator failure with a nonempty context — exactly one
error event in place of the remaining increments, then one terminal end
event; the end event is last and never followed by a token event. -/
theorem C3_stream_shape (srcs : List QuerySource) (ctx tokens : List String)
    (failure : Option String) :
    ∃ (toks : List String) (errEvs : List SSEEvent),
      stream_generator srcs ctx tokens failure
        = SSEEvent.sources srcs ::
            (toks.map SSEEvent.token ++ errEvs ++ [SSEEvent.endEv]) ∧
      (ctx ≠ [] → toks.Sublist tokens) ∧
      (failure = none → errEvs = []) ∧
      (ctx ≠ [] → ∀ e, failure = some e →
        errEvs = [SSEEvent.error ("LLM generation failed: " ++ e)]) ∧
      (errEvs = [] ∨ ∃ m, errEvs = [SSEEvent.error m]) ∧
      (stream_generator srcs ctx tokens failure).getLast? = some SSEEvent.endEv ∧
      SSEEvent.endEv ∉ (stream_generator srcs ctx tokens failure).dropLast := by
  have hshape : ∀ (toks : List String) (errEvs : List SSEEvent),
      stream_generator srcs ctx tokens failure
          = SSEEvent.sources srcs ::
              (toks.map SSEEvent.token ++ errEvs ++ [SSEEvent.endEv]) →
      (errEvs = [] ∨ ∃ m, errEvs = [SSEEvent.error m]) →
      (stream_generator srcs ctx tokens failure).getLast? = some SSEEvent.endEv ∧
      SSEEvent.endEv ∉ (stream_generator srcs ctx tokens failure).dropLast := by
    intro toks errEvs heq herr
    rw [heq]
    have hsplit : SSEEvent.sources srcs ::
        (toks.map SSEEvent.token ++ errEvs ++ [SSEEvent.endEv])
        = (SSEEvent.sources srcs :: (toks.map SSEEvent.token ++ errEvs))
          ++ [SSEEvent.endEv] := by
      simp
    rw [hsplit, List.getLast?_concat, List.dropLast_concat]
    refine ⟨rfl, ?_⟩
    intro hmem
    rcases List.mem_cons.mp hmem with hs | hrest
    · exact SSEEvent.noConfusion hs
    · rcases List.mem_append.mp hrest with htok | herrm
      · obtain ⟨t, -, habs⟩ := List.mem_map.mp htok
        exact SSEEvent.noConfusion habs
      · rcases herr with h0 | ⟨m, hm⟩
        · rw [h0] at herrm
          exact List.not_mem_nil _ herrm
        · rw [hm] at herrm
          rcases List.mem_singleton.mp herrm with h
          exact SSEEvent.noConfusion h
  by_cases hctx : ctx = []
  · refine ⟨["No relevant information found."], [], ?_, ?_, ?_, ?_, Or.inl rfl, ?_⟩
    · subst hctx
      simp [stream_generator, generate_rag_stream]
    · intro h
      exact absurd hctx h
    · intro _
      rfl
    · intro h
      exact absurd hctx h
    · apply hshape ["No relevant information found."] []
      · subst hctx
        simp [stream_generator, generate_rag_stream]
      · exact Or.inl rfl
  · have hne : ctx.isEmpty = false := by
      cases ctx with
      | nil => exact absurd rfl hctx
      | cons a l => rfl
    cases failure with
    | none =>
      refine ⟨tokens.filter (fun t => t ≠ ""), [], ?_, ?_, ?_, ?_, Or.inl rfl, ?_⟩
      · simp [stream_generator, generate_rag_stream, hne]
      · intro _
        exact List.filter_sublist tokens
      · intro _
        rfl
      · intro _ e he
        exact Option.noConfusion he
      · apply hshape (tokens.filter (fun t => t ≠ "")) []
        · simp [stream_generator, generate_rag_stream, hne]
        · exact Or.inl rfl
    | some e =>
      refine ⟨tokens.filter (fun t => t ≠ ""),
        [SSEEvent.error ("LLM generation failed: " ++ e)], ?_, ?_, ?_, ?_,
        Or.inr ⟨_, rfl⟩, ?_⟩
      · simp [stream_generator, generate_rag_stream, hne]
      · intro _
        exact List.filter_sublist tokens
      · intro h
        exact Option.noConfusion h
      · intro _ e' he'
        rw [Option.some.inj he']
      · apply hshape (tokens.filter (fun t => t ≠ ""))
          [SSEEvent.error ("LLM generation failed: " ++ e)]
        · simp [stream_generator, generate_rag_stream, hne]
        · exact Or.inr ⟨_, rfl⟩

/-- C9 helper: stripping never lengthens a character list. -/
theorem pyStrip_length_le (l : List Char) : (pyStrip l).length ≤ l.length := by
  rw [pyStrip, List.length_reverse]
  calc ((l.dropWhile pyIsSpace).reverse.dropWhile pyIsSpace).length
      ≤ (l.dropWhile pyIsSpace).reverse.length :=
        (List.dropWhile_sublist pyIsSpace).length_le
    _ = (l.dropWhile pyIsSpace).length := List.length_reverse _
    _ ≤ l.length := (List.dropWhile_sublist pyIsSpace).length_le

/-- C9 helper: each mapped value is bounded by the running maximum. -/
theorem le_foldr_max (f : List Char → Nat) :
    ∀ (l : List (List Char)) (s : List Char), s ∈ l → f s ≤ (l.map f).foldr max 0
  | [], s, h => absurd h (List.not_mem_nil s)
  | a :: l, s, h => by
    rw [List.map_cons, List.foldr_cons]
    rcases List.mem_cons.mp h with he | hin
    · rw [he]
      exact le_max_left _ _
    · exact le_trans (le_foldr_max f l s hin) (le_max_right _ _)

/-- C9 helper: every chunk the accumulation loop emits is bounded by
`max maxChars M` whenever every stripped sentence is bounded by `M` and
the running chunk is within the bound. -/
theorem buildChunks_bound (maxChars M : Nat) :
    ∀ (sentences : List (List Char)) (cur : List Char),
      (∀ s ∈ sentences, (pyStrip s).length ≤ M) →
      cur.length ≤ max maxChars M →
      ∀ c ∈ buildChunks maxChars sentences cur, c.length ≤ max maxChars M
  | [], cur => by
    intro _ hcur c hc
    rw [buildChunks] at hc
    by_cases hemp : cur.isEmpty
    · rw [if_pos hemp] at hc
      exact absurd hc (List.not_mem_nil c)
    · rw [if_neg hemp] at hc
      rw [List.mem_singleton.mp hc]
      exact le_trans (pyStrip_length_le cur) hcur
  | s :: rest, cur => by
    intro hs hcur c hc
    simp only [buildChunks] at hc
    by_cases h1 : (pyStrip s).isEmpty
    · rw [if_pos h1] at hc
      exact buildChunks_bound maxChars M rest cur
        (fun t ht => hs t (List.mem_cons_of_mem s ht)) hcur c hc
    · rw [if_neg h1] at hc
      by_cases h2 : cur.length + (pyStrip s).length + 1 ≤ maxChars
      · rw [if_pos h2] at hc
        refine buildChunks_bound maxChars M rest (cur ++ ' ' :: pyStrip s)
          (fun t ht => hs t (List.mem_cons_of_mem s ht)) ?_ c hc
        rw [List.length_append, List.length_cons]
        exact le_trans (by omega) (le_max_left maxChars M)
      · rw [if_neg h2] at hc
        rcases List.mem_append.mp hc with hflush | hrec
        · by_cases hemp : cur.isEmpty
          · rw [if_pos hemp] at hflush
            exact absurd hflush (List.not_mem_nil c)
          · rw [if_neg hemp] at hflush
            rw [List.mem_singleton.mp hflush]
            exact le_trans (pyStrip_length_le cur) hcur
        · refine buildChunks_bound maxChars M rest (pyStrip s)
            (fun t ht => hs t (List.mem_cons_of_mem s ht)) ?_ c hrec
          exact le_trans (hs s (List.mem_cons_self s rest)) (le_max_right maxChars M)

/-- C9 helper: collapsing whitespace in an all-whitespace text yields
only whitespace characters. -/
theorem collapseWsAux_all_space :
    ∀ (l : List Char) (b : Bool), (∀ c ∈ l, pyIsSpace c = true) →
      ∀ c ∈ collapseWsAux b l, pyIsSpace c = true
  | [], _ => by
    intro _ c hc
    exact absurd hc (List.not_mem_nil c)
  | a :: l, b => by
    intro h c hc
    have ha := h a (List.mem_cons_self a l)
    simp only [collapseWsAux, ha, if_true] at hc
    cases b with
    | true =>
      exact collapseWsAux_all_space l true
        (fun d hd => h d (List.mem_cons_of_mem a hd)) c hc
    | false =>
      simp only [Bool.false_eq_true, if_false] at hc
      rcases List.mem_cons.mp hc with he | hin
      · rw [he]
        rfl
      · exact collapseWsAux_all_space l true
          (fun d hd => h d (List.mem_cons_of_mem a hd)) c hin

/-- C9 helper: stripping an all-whitespace list yields the empty list. -/
theorem pyStrip_eq_nil_of_all_space (l : List Char)
    (h : ∀ c ∈ l, pyIsSpace c = true) : pyStrip l = [] := by
  rw [pyStrip, List.dropWhile_eq_nil_iff.mpr h]
  rfl

/-- C9 helper: a whitespace-only (or empty) input splits to no chunks. -/
theorem split_text_all_space (text : String) (maxChars : Nat)
    (hws : ∀ c ∈ text.toList, pyIsSpace c = true) :
    split_text text maxChars = [] := by
  have h : pyStrip (collapseWs text.toList) = [] :=
    pyStrip_eq_nil_of_all_space _ (collapseWsAux_all_space text.toList false hws)
  simp only [split_text, h, List.isEmpty_nil, if_true]

/-- C9, counterexample: a single sentence longer than `maxChars` is
emitted as one oversized chunk — `split_text "aaaa" 3` returns a chunk
of length `4 > 3`, violating "every chunk length ≤ maxChars". -/
theorem C9_counterexample :
    split_text "aaaa" 3 = ["aaaa"] ∧
    ¬ (∀ c ∈ split_text "aaaa" 3, c.length ≤ 3) := by
  refine ⟨by decide, by decide⟩

/-- C9, amended: splitting empty or whitespace-only input yields an
empty sequence, and every chunk is bounded by
`max maxChars (longest stripped sentence)` — chunks built by
accumulating sentences respect `maxChars`, but a lone sentence longer
than `maxChars` passes through as a single oversized chunk. -/
theorem C9_split_bounds (text : String) (maxChars : Nat)
    (hws : ∀ c ∈ text.toList, pyIsSpace c = true) :
    split_text text maxChars = [] ∧
    ∀ (t c : String), c ∈ split_text t maxChars →
      c.length ≤ max maxChars (maxSentenceLen t) := by
  refine ⟨split_text_all_space text maxChars hws, ?_⟩
  intro t c hc
  simp only [split_text] at hc
  by_cases hcl : (pyStrip (collapseWs t.toList)).isEmpty
  · rw [if_pos hcl] at hc
    exact absurd hc (List.not_mem_nil c)
  · rw [if_neg hcl] at hc
    obtain ⟨l, hl, hcl2⟩ := List.mem_map.mp hc
    have hb := buildChunks_bound maxChars (maxSentenceLen t)
      (splitPunct (pyStrip (collapseWs t.toList))) []
      (fun s hsm => le_foldr_max (fun s => (pyStrip s).length) _ s hsm)
      (by simp) l hl
    rw [← hcl2]
    exact hb

/-- C9, witness for `C9_split_bounds` at a whitespace-only input. -/
theorem C9_witness : split_text " " 7 = [] :=
  (C9_split_bounds " " 7 (by decide)).1
